import Mathlib

/-!
Verification development for the embedded contact-point provisioning service
(`EmbeddedContactPointService` in the `provisioning` package).

The shallow embedding below translates the Go source of the service into
Lean definitions.  JSON settings objects (`simplejson.Json` restricted to the
string-valued keys the service manipulates) are modelled as association lists
with first-occurrence lookup; the injected capabilities (encryption service,
alertmanager store, provenance store, transaction manager) are modelled from
their contracts in the specification, since their implementations are not part
of the excerpt.
-/

/-- A settings object: string keys to string values, first occurrence wins
(mirrors a JSON object, whose keys are unique). -/
abbrev Settings := List (String × String)

/-- Model of `Get(k).MustString()` of `simplejson`: value of the first occurrence of
`k`, or the empty string when the key is absent. -/
def getS : Settings → String → String
  | [], _ => ""
  | kv :: rest, k => if kv.1 = k then kv.2 else getS rest k

/-- Key-membership test for a settings object. -/
def hasKey : Settings → String → Bool
  | [], _ => false
  | kv :: rest, k => kv.1 == k || hasKey rest k

/-- Model of `Set(k, v)` of `simplejson`: replace the value at the first occurrence of
`k`, or append the binding when the key is absent. -/
def setS : Settings → String → String → Settings
  | [], k, v => [(k, v)]
  | kv :: rest, k, v => if kv.1 = k then (k, v) :: rest else kv :: setS rest k v

/-- Lookup `findVal l k`: the value bound to `k` in an association list, if any. -/
def findVal (l : List (String × String)) (k : String) : Option String :=
  (l.find? (fun kv => kv.1 == k)).map Prod.snd

/-- Model of `apimodels.PostableGrafanaReceiver`: the internal (persisted) receiver
record.  `secureSettings` holds the base64 ciphertext of each secret. -/
structure GrafanaReceiver where
  uid : String
  name : String
  ctype : String
  disableResolveMessage : Bool
  settings : Settings
  secureSettings : List (String × String)
deriving DecidableEq, Repr

/-- Model of `apimodels.PostableApiReceiver`: a named receiver group with its
Grafana-managed member receivers. -/
structure ApiReceiver where
  name : String
  grafanaManagedReceivers : List GrafanaReceiver
deriving DecidableEq, Repr

/-- Model of `apimodels.PostableUserConfig` restricted to the part this service
touches: the ordered sequence of receiver groups.  All other fields of the
document are pass-through and irrelevant to the claims. -/
structure PostableUserConfig where
  receivers : List ApiReceiver
deriving DecidableEq, Repr

/-- Model of `apimodels.EmbeddedContactPoint`: the external, API-facing view. -/
structure EmbeddedContactPoint where
  uid : String
  name : String
  ctype : String
  disableResolveMessage : Bool
  settings : Settings
  provenance : String
deriving DecidableEq, Repr

/-- Model of `apimodels.RedactedValue`: the fixed sentinel returned in place of a
populated secret. -/
def RedactedValue : String := "[REDACTED]"

/-- The injected encryption capability together with base64 transport, i.e.
the composites `encryptValue` (encrypt then base64-encode) and
`decrypteValue` (base64-decode then decrypt).  A `dec` result of `none`
covers both a base64-decode failure and a decryption failure. -/
structure CryptoService where
  enc : String → String
  dec : String → Option String

/-- Modelled from the spec: `GetGrafanaReceiverMap` (defined in the api
models package, not under the excerpt) iterates every receiver across every
group of the configuration document. -/
def GetGrafanaReceiverMap (cfg : PostableUserConfig) : List GrafanaReceiver :=
  (cfg.receivers.map (fun g => g.grafanaManagedReceivers)).flatten

/-- The single-quote character, used in store error messages. -/
def squoteStr : String := String.singleton (Char.ofNat 39)

/-- The error message of the service for a missing contact point UID. -/
def notFoundMsg (uid : String) : String :=
  "contact point with uid " ++ squoteStr ++ uid ++ squoteStr ++ " not found"

/-- The shared shape of the two secure-settings loops of the service: for
each `(k, ciphertext)` pair, decrypt; on failure skip the key, on an empty
plaintext skip the key, otherwise set key `k` of the settings object to
`f plaintext`. -/
def applyDecrypted (dec : String → Option String) (f : String → String)
    (ss : List (String × String)) (s : Settings) : Settings :=
  ss.foldl (fun acc kv =>
    match dec kv.2 with
    | none => acc
    | some d => if d = "" then acc else setS acc kv.1 (f d)) s

/-- The secure-settings loop of `GetContactPoints`: populated secrets are
replaced by the `RedactedValue` sentinel. -/
def redactSecureSettings (dec : String → Option String)
    (ss : List (String × String)) (s : Settings) : Settings :=
  applyDecrypted dec (fun _ => RedactedValue) ss s

/-- The secure-settings loop of `getContactPointUncrypted`: populated
secrets are replaced by their decrypted plaintext. -/
def decryptSecureSettings (dec : String → Option String)
    (ss : List (String × String)) (s : Settings) : Settings :=
  applyDecrypted dec (fun d => d) ss s

/-- The external view of one receiver built by `GetContactPoints`:
plain fields copied, provenance attached when recorded and non-empty,
populated secrets redacted. -/
def redactContactPoint (dec : String → Option String)
    (provenances : List (String × String)) (r : GrafanaReceiver) :
    EmbeddedContactPoint :=
  { uid := r.uid
    name := r.name
    ctype := r.ctype
    disableResolveMessage := r.disableResolveMessage
    settings := redactSecureSettings dec r.secureSettings r.settings
    provenance :=
      if hasKey provenances r.uid && getS provenances r.uid != "" then
        getS provenances r.uid
      else "" }

/-- Model of `GetContactPoints`: list every receiver of every group as an external
contact point with secrets redacted. -/
def GetContactPoints (dec : String → Option String)
    (provenances : List (String × String)) (cfg : PostableUserConfig) :
    List EmbeddedContactPoint :=
  (GetGrafanaReceiverMap cfg).map (redactContactPoint dec provenances)

/-- The view built by `getContactPointUncrypted` for the matched receiver:
plain fields copied and populated secrets fully decrypted into `settings`. -/
def uncryptedView (dec : String → Option String) (r : GrafanaReceiver) :
    EmbeddedContactPoint :=
  { uid := r.uid
    name := r.name
    ctype := r.ctype
    disableResolveMessage := r.disableResolveMessage
    settings := decryptSecureSettings dec r.secureSettings r.settings
    provenance := "" }

/-- Model of `getContactPointUncrypted` (internal only): return the first receiver
with the given UID, with decrypted secrets, or the not-found error. -/
def getContactPointUncrypted (dec : String → Option String)
    (cfg : PostableUserConfig) (uid : String) :
    Except String EmbeddedContactPoint :=
  match (GetGrafanaReceiverMap cfg).find? (fun r => r.uid == uid) with
  | some r => .ok (uncryptedView dec r)
  | none => .error (notFoundMsg uid)

/-- Modelled from the spec: `EmbeddedContactPoint.SecretKeys` (api models
package, not under the excerpt) — the secret key names are a closed mapping
from the channel `Type` to its schema, supplied here as `secretKeysOf`. -/
def SecretKeys (secretKeysOf : String → List String)
    (cp : EmbeddedContactPoint) : List String :=
  secretKeysOf cp.ctype

/-- Modelled from the spec: `EmbeddedContactPoint.ExtractSecrtes` (api models
package, not under the excerpt) — determines which `Settings` keys are secret
per the `Type` schema, removes them from `Settings`, and returns them keyed
by name together with the remaining plain settings. -/
def ExtractSecrtes (secretKeysOf : String → List String)
    (cp : EmbeddedContactPoint) :
    List (String × String) × Settings :=
  ((secretKeysOf cp.ctype).filterMap
      (fun k => if hasKey cp.settings k then some (k, getS cp.settings k) else none),
   cp.settings.filter (fun kv => !((secretKeysOf cp.ctype).contains kv.1)))

/-- The merge-on-update loop of `UpdateContactPoint`: every secret key whose
submitted value equals the redaction sentinel is replaced by the value the
store previously held (`raw`, obtained from the unredacted accessor). -/
def mergeRedactedSettings (secretKeys : List String) (s raw : Settings) :
    Settings :=
  secretKeys.foldl
    (fun acc k => if getS acc k = RedactedValue then setS acc k (getS raw k) else acc)
    s

/-- The internal receiver record built from a contact point by Create and
Update: plain settings kept, secrets extracted and encrypted into
`secureSettings`. -/
def mergedReceiverOf (crypto : CryptoService)
    (secretKeysOf : String → List String) (cp : EmbeddedContactPoint) :
    GrafanaReceiver :=
  { uid := cp.uid
    name := cp.name
    ctype := cp.ctype
    disableResolveMessage := cp.disableResolveMessage
    settings := (ExtractSecrtes secretKeysOf cp).2
    secureSettings :=
      (ExtractSecrtes secretKeysOf cp).1.map (fun kv => (kv.1, crypto.enc kv.2)) }

/-- The receiver Create persists: the merged receiver with the freshly
generated UID. -/
def createdReceiver (crypto : CryptoService)
    (secretKeysOf : String → List String) (newUid : String)
    (cp : EmbeddedContactPoint) : GrafanaReceiver :=
  mergedReceiverOf crypto secretKeysOf { cp with uid := newUid }

/-- The receiver-group loop of `CreateContactPoint`: append the new receiver
to every group whose name matches; if none matches, append one new group
holding exactly the new receiver. -/
def addReceiverToConfig (cfg : PostableUserConfig) (gr : GrafanaReceiver) :
    PostableUserConfig :=
  if cfg.receivers.any (fun g => g.name == gr.name) then
    { receivers :=
        cfg.receivers.map (fun g =>
          if g.name = gr.name then
            { g with grafanaManagedReceivers := g.grafanaManagedReceivers ++ [gr] }
          else g) }
  else
    { receivers := cfg.receivers ++ [⟨gr.name, [gr]⟩] }

/-- The inner member loop of `UpdateContactPoint`: replace the first member
whose UID matches, in place; `none` when no member matches. -/
def replaceFirst (mr : GrafanaReceiver) :
    List GrafanaReceiver → Option (List GrafanaReceiver)
  | [] => none
  | r :: rs =>
      if r.uid = mr.uid then some (mr :: rs)
      else (replaceFirst mr rs).map (fun rs' => r :: rs')

/-- The receiver-group loop of `UpdateContactPoint`: in every group whose
name matches the contact point's name, replace the first member with the
matching UID in place; a name-matching group without that member aborts with
the not-found error.  Groups with other names pass through unchanged. -/
def updateGroups (mr : GrafanaReceiver) :
    List ApiReceiver → Except String (List ApiReceiver)
  | [] => .ok []
  | g :: gs =>
      if g.name = mr.name then
        match replaceFirst mr g.grafanaManagedReceivers with
        | none => .error (notFoundMsg mr.uid)
        | some ms =>
            (updateGroups mr gs).map
              (fun rest => { g with grafanaManagedReceivers := ms } :: rest)
      else
        (updateGroups mr gs).map (fun rest => g :: rest)

/-- The inner member loop of `DeleteContactPoint` on one group: remove the
first member whose UID matches (the loop breaks after the removal). -/
def removeFirstWithUid (uid : String) :
    List GrafanaReceiver → List GrafanaReceiver
  | [] => []
  | r :: rs => if r.uid = uid then rs else r :: removeFirstWithUid uid rs

/-- The receiver-group loop of `DeleteContactPoint`: every group drops its
first member with the matching UID; absence of a match changes nothing. -/
def deleteFromConfig (cfg : PostableUserConfig) (uid : String) :
    PostableUserConfig :=
  { receivers :=
      cfg.receivers.map (fun g =>
        { g with grafanaManagedReceivers :=
            removeFirstWithUid uid g.grafanaManagedReceivers }) }

/-- Errors of the service, following the taxonomy of the specification. -/
inductive Err where
  | notFound (msg : String)
  | invalidContactPoint
  | concurrentModification
  | storeError
deriving DecidableEq, Repr

/-- The state of the injected durable stores: the configuration document of
the organization and the provenance side table (UID to provenance tag). -/
structure SvcState where
  doc : PostableUserConfig
  provenance : List (String × String)
deriving DecidableEq, Repr

/-- Modelled from the spec: `SaveIfUnchanged` of the alertmanager store —
serialize and commit the new document only while the store's current content
hash still equals the hash the caller fetched; otherwise fail with
`ConcurrentModification` and keep the stored document. -/
def SaveIfUnchanged (hashFn : PostableUserConfig → Nat)
    (cur newDoc : PostableUserConfig) (fetchedHash : Nat) :
    Except Err PostableUserConfig :=
  if hashFn cur = fetchedHash then .ok newDoc
  else .error .concurrentModification

/-- Injected faults for the two halves of a mutating transaction, mirroring
the fault-injection test of the specification. -/
structure FailureInjection where
  failSave : Bool
  failProvenance : Bool
deriving DecidableEq, Repr

/-- Modelled from the spec: `TransactionManager.InTransaction` — run the
body; if it reports an error the whole transaction rolls back and the state
observed afterwards is the state from before the transaction. -/
def InTransaction (body : SvcState → Option Err × SvcState) (st : SvcState) :
    Option Err × SvcState :=
  match body st with
  | (some e, _) => (some e, st)
  | (none, st') => (none, st')

/-- The transaction body of `CreateContactPoint`: save the document with the
hash fetched at the operation's own read, then write the provenance record
for the new UID.  The pair returned carries the state as mutated so far,
even when the second half fails, so that the rollback of `InTransaction` is
what guarantees atomicity. -/
def createTxnBody (hashFn : PostableUserConfig → Nat) (fi : FailureInjection)
    (fetchedHash : Nat) (newDoc : PostableUserConfig)
    (newUid provenanceTag : String) (st : SvcState) : Option Err × SvcState :=
  if fi.failSave then (some .storeError, st)
  else
    match SaveIfUnchanged hashFn st.doc newDoc fetchedHash with
    | .error e => (some e, st)
    | .ok d =>
        let st1 : SvcState := { st with doc := d }
        if fi.failProvenance then (some .storeError, st1)
        else (none, { st1 with provenance := setS st1.provenance newUid provenanceTag })

/-- Model of `CreateContactPoint`: validate, load the document and its hash, extract
and encrypt secrets, generate the UID, splice the new receiver into the
receiver groups, and commit document plus provenance in one transaction. -/
def CreateContactPoint (crypto : CryptoService)
    (secretKeysOf : String → List String)
    (isValidCp : EmbeddedContactPoint → Bool)
    (hashFn : PostableUserConfig → Nat) (fi : FailureInjection)
    (newUid : String) (st : SvcState) (cp : EmbeddedContactPoint)
    (provenanceTag : String) : Option Err × SvcState :=
  if !(isValidCp cp) then (some .invalidContactPoint, st)
  else
    let fetchedHash := hashFn st.doc
    let gr := createdReceiver crypto secretKeysOf newUid cp
    let newDoc := addReceiverToConfig st.doc gr
    InTransaction (createTxnBody hashFn fi fetchedHash newDoc newUid provenanceTag) st

/-- Model of `UpdateContactPoint`: fetch the unredacted record for the UID, merge the
redacted secret values, validate, extract and encrypt, replace the member in
its groups, and save with the hash captured at this operation's own read.
The provenance table is never touched. -/
def UpdateContactPoint (crypto : CryptoService)
    (secretKeysOf : String → List String)
    (isValidCp : EmbeddedContactPoint → Bool)
    (hashFn : PostableUserConfig → Nat) (st : SvcState)
    (cp : EmbeddedContactPoint) : Option Err × SvcState :=
  match getContactPointUncrypted crypto.dec st.doc cp.uid with
  | .error msg => (some (.notFound msg), st)
  | .ok raw =>
      let cp1 : EmbeddedContactPoint :=
        { cp with settings :=
            mergeRedactedSettings (secretKeysOf cp.ctype) cp.settings raw.settings }
      if !(isValidCp cp1) then (some .invalidContactPoint, st)
      else
        let mr := mergedReceiverOf crypto secretKeysOf cp1
        let fetchedHash := hashFn st.doc
        match updateGroups mr st.doc.receivers with
        | .error msg => (some (.notFound msg), st)
        | .ok rs =>
            match SaveIfUnchanged hashFn st.doc ⟨rs⟩ fetchedHash with
            | .error e => (some e, st)
            | .ok d => (none, { st with doc := d })

/-- The transaction body of `DeleteContactPoint`: delete the provenance
record for the UID (idempotent), then save the document with the hash
fetched at the operation's own read. -/
def deleteTxnBody (hashFn : PostableUserConfig → Nat) (fi : FailureInjection)
    (fetchedHash : Nat) (newDoc : PostableUserConfig) (uid : String)
    (st : SvcState) : Option Err × SvcState :=
  if fi.failProvenance then (some .storeError, st)
  else
    let st1 : SvcState := { st with provenance := st.provenance.filter (fun kv => kv.1 != uid) }
    if fi.failSave then (some .storeError, st1)
    else
      match SaveIfUnchanged hashFn st1.doc newDoc fetchedHash with
      | .error e => (some e, st1)
      | .ok d => (none, { st1 with doc := d })

/-- Model of `DeleteContactPoint`: load the document and its hash, drop the member
with the UID from its groups, and commit the document plus the provenance
deletion in one transaction.  A missing UID is not an error. -/
def DeleteContactPoint (hashFn : PostableUserConfig → Nat)
    (fi : FailureInjection) (st : SvcState) (uid : String) :
    Option Err × SvcState :=
  let fetchedHash := hashFn st.doc
  let newDoc := deleteFromConfig st.doc uid
  InTransaction (deleteTxnBody hashFn fi fetchedHash newDoc uid) st

/-! ## Basic lemmas about the settings map -/

theorem getS_setS_self (s : Settings) (k v : String) :
    getS (setS s k v) k = v := by
  induction s with
  | nil => simp [setS, getS]
  | cons kv rest ih =>
      by_cases h : kv.1 = k
      · simp [setS, h, getS]
      · simp [setS, h, getS, ih]

theorem getS_setS_ne (s : Settings) (k k' v : String) (h : k ≠ k') :
    getS (setS s k v) k' = getS s k' := by
  induction s with
  | nil => simp [setS, getS, h]
  | cons kv rest ih =>
      by_cases hh : kv.1 = k
      · simp [setS, hh, getS, h, hh ▸ h]
      · simp [setS, hh, getS, ih]

theorem hasKey_setS_self (s : Settings) (k v : String) :
    hasKey (setS s k v) k = true := by
  induction s with
  | nil => simp [setS, hasKey]
  | cons kv rest ih =>
      by_cases h : kv.1 = k
      · simp [setS, h, hasKey]
      · simp [setS, h, hasKey, ih]

theorem hasKey_setS_ne (s : Settings) (k k' v : String) (h : k ≠ k') :
    hasKey (setS s k v) k' = hasKey s k' := by
  induction s with
  | nil =>
      simp [setS, hasKey]
      exact fun hk => h hk
  | cons kv rest ih =>
      by_cases hh : kv.1 = k
      · subst hh
        simp [setS, hasKey]
        try exact fun hk => h hk
      · simp [setS, hh, hasKey, ih]

/-! ## Lemmas about the shared secure-settings loop -/

theorem applyDecrypted_cons_none {dec : String → Option String}
    {f : String → String} {kv : String × String} {ss : List (String × String)}
    {s : Settings} (h : dec kv.2 = none) :
    applyDecrypted dec f (kv :: ss) s = applyDecrypted dec f ss s := by
  simp [applyDecrypted, h]

theorem applyDecrypted_cons_empty {dec : String → Option String}
    {f : String → String} {kv : String × String} {ss : List (String × String)}
    {s : Settings} (h : dec kv.2 = some "") :
    applyDecrypted dec f (kv :: ss) s = applyDecrypted dec f ss s := by
  simp [applyDecrypted, h]

theorem applyDecrypted_cons_set {dec : String → Option String}
    {f : String → String} {kv : String × String} {ss : List (String × String)}
    {s : Settings} {d : String} (h : dec kv.2 = some d) (hne : d ≠ "") :
    applyDecrypted dec f (kv :: ss) s =
      applyDecrypted dec f ss (setS s kv.1 (f d)) := by
  simp [applyDecrypted, h, hne]

theorem getS_applyDecrypted_not_mem {dec : String → Option String}
    {f : String → String} {ss : List (String × String)} {k : String}
    (h : k ∉ ss.map Prod.fst) :
    ∀ s, getS (applyDecrypted dec f ss s) k = getS s k := by
  induction ss with
  | nil => intro s; rfl
  | cons kv rest ih =>
      intro s
      have hk1 : kv.1 ≠ k := by
        intro hc; exact h (by simp [hc])
      have hrest : k ∉ rest.map Prod.fst := by
        intro hc; exact h (by simp [hc])
      rcases hv : dec kv.2 with _ | d
      · rw [applyDecrypted_cons_none hv, ih hrest]
      · by_cases hd : d = ""
        · subst hd
          rw [applyDecrypted_cons_empty hv, ih hrest]
        · rw [applyDecrypted_cons_set hv hd, ih hrest,
            getS_setS_ne _ _ _ _ hk1]

theorem getS_applyDecrypted_hit {dec : String → Option String}
    {f : String → String} {ss : List (String × String)} {k v d : String}
    (hnd : (ss.map Prod.fst).Nodup) (hmem : (k, v) ∈ ss)
    (hd : dec v = some d) (hne : d ≠ "") :
    ∀ s, getS (applyDecrypted dec f ss s) k = f d := by
  induction ss with
  | nil => cases hmem
  | cons kv rest ih =>
      intro s
      rcases List.mem_cons.mp hmem with hhead | htail
      · have hk : kv = (k, v) := hhead.symm
        subst hk
        have hrest : k ∉ rest.map Prod.fst := by
          simpa using (List.nodup_cons.mp hnd).1
        rw [applyDecrypted_cons_set hd hne,
          getS_applyDecrypted_not_mem hrest, getS_setS_self]
      · have hk1 : kv.1 ≠ k := by
          intro hc
          have : k ∈ rest.map Prod.fst := by
            exact List.mem_map.mpr ⟨(k, v), htail, rfl⟩
          exact (List.nodup_cons.mp hnd).1 (hc ▸ this)
        have hnd' : (rest.map Prod.fst).Nodup := (List.nodup_cons.mp hnd).2
        rcases hv : dec kv.2 with _ | d'
        · rw [applyDecrypted_cons_none hv, ih hnd' htail]
        · by_cases hdd : d' = ""
          · subst hdd
            rw [applyDecrypted_cons_empty hv, ih hnd' htail]
          · rw [applyDecrypted_cons_set hv hdd, ih hnd' htail]

theorem getS_applyDecrypted_skip {dec : String → Option String}
    {f : String → String} {ss : List (String × String)} {k v : String}
    (hnd : (ss.map Prod.fst).Nodup) (hmem : (k, v) ∈ ss)
    (hd : dec v = none ∨ dec v = some "") :
    ∀ s, getS (applyDecrypted dec f ss s) k = getS s k := by
  induction ss with
  | nil => cases hmem
  | cons kv rest ih =>
      intro s
      rcases List.mem_cons.mp hmem with hhead | htail
      · have hk : kv = (k, v) := hhead.symm
        subst hk
        have hrest : k ∉ rest.map Prod.fst := by
          simpa using (List.nodup_cons.mp hnd).1
        rcases hd with hd | hd
        · rw [applyDecrypted_cons_none hd, getS_applyDecrypted_not_mem hrest]
        · rw [applyDecrypted_cons_empty hd, getS_applyDecrypted_not_mem hrest]
      · have hk1 : kv.1 ≠ k := by
          intro hc
          have : k ∈ rest.map Prod.fst :=
            List.mem_map.mpr ⟨(k, v), htail, rfl⟩
          exact (List.nodup_cons.mp hnd).1 (hc ▸ this)
        have hnd' : (rest.map Prod.fst).Nodup := (List.nodup_cons.mp hnd).2
        rcases hv : dec kv.2 with _ | d'
        · rw [applyDecrypted_cons_none hv, ih hnd' htail]
        · by_cases hdd : d' = ""
          · subst hdd
            rw [applyDecrypted_cons_empty hv, ih hnd' htail]
          · rw [applyDecrypted_cons_set hv hdd, ih hnd' htail,
              getS_setS_ne _ _ _ _ hk1]

theorem getS_redact_range (dec : String → Option String)
    (ss : List (String × String)) (k : String) :
    ∀ s, getS (redactSecureSettings dec ss s) k = getS s k ∨
      getS (redactSecureSettings dec ss s) k = RedactedValue := by
  induction ss with
  | nil => intro s; left; rfl
  | cons kv rest ih =>
      intro s
      rcases hv : dec kv.2 with _ | d
      · rw [redactSecureSettings, applyDecrypted_cons_none hv]
        exact ih s
      · by_cases hd : d = ""
        · subst hd
          rw [redactSecureSettings, applyDecrypted_cons_empty hv]
          exact ih s
        · rw [redactSecureSettings, applyDecrypted_cons_set hv hd]
          rcases ih (setS s kv.1 RedactedValue) with h | h
          · by_cases hk1 : kv.1 = k
            · right
              rw [redactSecureSettings] at h
              rw [h, hk1, getS_setS_self]
            · left
              rw [redactSecureSettings] at h
              rw [h, getS_setS_ne _ _ _ _ hk1]
          · right
            rw [redactSecureSettings] at h
            exact h

/-! ## Lemmas about UID lookup and the merge-on-update loop -/

theorem find?_uid_eq {l : List GrafanaReceiver} {r : GrafanaReceiver}
    {uid : String} (hr : r ∈ l) (huid : r.uid = uid)
    (hnd : (l.map GrafanaReceiver.uid).Nodup) :
    l.find? (fun x => x.uid == uid) = some r := by
  induction l with
  | nil => cases hr
  | cons h t ih =>
      rcases List.mem_cons.mp hr with hhead | htail
      · subst hhead
        simp [List.find?, huid]
      · have hne : h.uid ≠ uid := by
          intro hc
          have hmem : r.uid ∈ t.map GrafanaReceiver.uid :=
            List.mem_map.mpr ⟨r, htail, rfl⟩
          exact (List.nodup_cons.mp hnd).1 (by rw [hc, ← huid]; exact hmem)
        have : (h.uid == uid) = false := by
          simp [hne]
        simp [List.find?, this]
        exact ih htail (List.nodup_cons.mp hnd).2

theorem mergeRedacted_cons (k0 : String) (keys : List String)
    (s raw : Settings) :
    mergeRedactedSettings (k0 :: keys) s raw =
      mergeRedactedSettings keys
        (if getS s k0 = RedactedValue then setS s k0 (getS raw k0) else s) raw := by
  rfl

theorem getS_mergeRedacted_not_mem {keys : List String} {k : String}
    (h : k ∉ keys) (raw : Settings) :
    ∀ s, getS (mergeRedactedSettings keys s raw) k = getS s k := by
  induction keys with
  | nil => intro s; rfl
  | cons k0 rest ih =>
      intro s
      have hk0 : k0 ≠ k := fun hc => h (by simp [hc])
      have hrest : k ∉ rest := fun hc => h (by simp [hc])
      rw [mergeRedacted_cons, ih hrest]
      by_cases hs : getS s k0 = RedactedValue
      · simp [hs, getS_setS_ne _ _ _ _ hk0]
      · simp [hs]

theorem hasKey_mergeRedacted_not_mem {keys : List String} {k : String}
    (h : k ∉ keys) (raw : Settings) :
    ∀ s, hasKey (mergeRedactedSettings keys s raw) k = hasKey s k := by
  induction keys with
  | nil => intro s; rfl
  | cons k0 rest ih =>
      intro s
      have hk0 : k0 ≠ k := fun hc => h (by simp [hc])
      have hrest : k ∉ rest := fun hc => h (by simp [hc])
      rw [mergeRedacted_cons, ih hrest]
      by_cases hs : getS s k0 = RedactedValue
      · simp [hs, hasKey_setS_ne _ _ _ _ hk0]
      · simp [hs]

theorem getS_mergeRedacted_hit {keys : List String} {k : String}
    (hnd : keys.Nodup) (hk : k ∈ keys) (raw : Settings) :
    ∀ s, getS s k = RedactedValue →
      getS (mergeRedactedSettings keys s raw) k = getS raw k := by
  induction keys with
  | nil => cases hk
  | cons k0 rest ih =>
      intro s hs
      rcases List.mem_cons.mp hk with hhead | htail
      · subst hhead
        have hrest : k ∉ rest := (List.nodup_cons.mp hnd).1
        rw [mergeRedacted_cons, if_pos hs, getS_mergeRedacted_not_mem hrest,
          getS_setS_self]
      · have hk0 : k0 ≠ k := by
          intro hc
          exact (List.nodup_cons.mp hnd).1 (hc ▸ htail)
        rw [mergeRedacted_cons]
        by_cases h0 : getS s k0 = RedactedValue
        · rw [if_pos h0]
          exact ih (List.nodup_cons.mp hnd).2 htail _
            (by rw [getS_setS_ne _ _ _ _ hk0]; exact hs)
        · rw [if_neg h0]
          exact ih (List.nodup_cons.mp hnd).2 htail _ hs

theorem hasKey_mergeRedacted_hit {keys : List String} {k : String}
    (hnd : keys.Nodup) (hk : k ∈ keys) (raw : Settings) :
    ∀ s, getS s k = RedactedValue →
      hasKey (mergeRedactedSettings keys s raw) k = true := by
  induction keys with
  | nil => cases hk
  | cons k0 rest ih =>
      intro s hs
      rcases List.mem_cons.mp hk with hhead | htail
      · subst hhead
        have hrest : k ∉ rest := (List.nodup_cons.mp hnd).1
        rw [mergeRedacted_cons, if_pos hs, hasKey_mergeRedacted_not_mem hrest,
          hasKey_setS_self]
      · have hk0 : k0 ≠ k := by
          intro hc
          exact (List.nodup_cons.mp hnd).1 (hc ▸ htail)
        rw [mergeRedacted_cons]
        by_cases h0 : getS s k0 = RedactedValue
        · rw [if_pos h0]
          exact ih (List.nodup_cons.mp hnd).2 htail _
            (by rw [getS_setS_ne _ _ _ _ hk0]; exact hs)
        · rw [if_neg h0]
          exact ih (List.nodup_cons.mp hnd).2 htail _ hs

/-! ## Lemmas about secret extraction and encryption -/

theorem findVal_extract {keys : List String} {k : String} (s : Settings)
    (hk : k ∈ keys) (hhas : hasKey s k = true) :
    findVal (keys.filterMap
      (fun k' => if hasKey s k' then some (k', getS s k') else none)) k =
      some (getS s k) := by
  induction keys with
  | nil => cases hk
  | cons k0 rest ih =>
      by_cases h0 : k0 = k
      · subst h0
        simp [List.filterMap, hhas, findVal, List.find?]
      · rcases List.mem_cons.mp hk with hhead | htail
        · exact absurd hhead.symm h0
        · by_cases hh0 : hasKey s k0 = true
          · have : (k0 == k) = false := by simp [h0]
            simp only [List.filterMap_cons, hh0, if_pos]
            rw [findVal] at ih ⊢
            simp only [List.find?, this]
            exact ih htail
          · simp only [List.filterMap_cons, Bool.not_eq_true] at hh0
            simp only [List.filterMap_cons, hh0]
            exact ih htail

theorem findVal_map_enc (enc : String → String)
    (l : List (String × String)) (k : String) :
    findVal (l.map (fun kv => (kv.1, enc kv.2))) k =
      (findVal l k).map enc := by
  induction l with
  | nil => rfl
  | cons kv rest ih =>
      by_cases h : kv.1 = k
      · simp [findVal, List.find?, h]
      · rw [findVal, findVal, List.map_cons, List.find?_cons_of_neg,
          List.find?_cons_of_neg]
        · exact ih
        · simp [h]
        · simp [h]

/-! ## Lemmas about the update and delete loops -/

theorem exceptMap_ok {α β γ : Type} {f : α → β} {e : Except γ α} {b : β}
    (h : e.map f = .ok b) : ∃ a, e = .ok a ∧ b = f a := by
  cases e with
  | error err => simp [Except.map] at h
  | ok a =>
      simp [Except.map] at h
      exact ⟨a, rfl, h.symm⟩

theorem replaceFirst_none_iff {mr : GrafanaReceiver}
    {ms : List GrafanaReceiver} :
    replaceFirst mr ms = none ↔ ∀ r ∈ ms, r.uid ≠ mr.uid := by
  induction ms with
  | nil => simp [replaceFirst]
  | cons r rs ih =>
      by_cases h : r.uid = mr.uid
      · simp [replaceFirst, h]
      · simp [replaceFirst, h, ih]

theorem replaceFirst_some_spec {mr : GrafanaReceiver} :
    ∀ {ms ms' : List GrafanaReceiver}, replaceFirst mr ms = some ms' →
      ∃ j, ∃ hj : j < ms.length,
        (ms.get ⟨j, hj⟩).uid = mr.uid ∧
        (∀ j' (hj' : j' < ms.length), j' < j → (ms.get ⟨j', hj'⟩).uid ≠ mr.uid) ∧
        ms' = ms.set j mr := by
  intro ms
  induction ms with
  | nil => intro ms' h; cases h
  | cons r rs ih =>
      intro ms' h
      rw [replaceFirst] at h
      by_cases hr : r.uid = mr.uid
      · rw [if_pos hr] at h
        refine ⟨0, by simp, by simpa using hr, ?_, ?_⟩
        · intro j' hj' hlt; omega
        · simpa using (Option.some_inj.mp h).symm
      · rw [if_neg hr] at h
        obtain ⟨rs', hrs', hms'⟩ := Option.map_eq_some'.mp h
        obtain ⟨j, hj, hmatch, hbefore, hset⟩ := ih hrs'
        refine ⟨j + 1, by simpa using Nat.succ_lt_succ hj, by simpa using hmatch,
          ?_, ?_⟩
        · intro j' hj' hlt
          cases j' with
          | zero => simpa using hr
          | succ j'' =>
              have : j'' < rs.length := by simpa using hj'
              simpa using hbefore j'' this (by omega)
        · rw [← hms', hset]
          rfl

theorem updateGroups_ok_spec {mr : GrafanaReceiver} :
    ∀ {gs gs' : List ApiReceiver}, updateGroups mr gs = .ok gs' →
      gs'.length = gs.length ∧
      ∀ i (hi : i < gs.length) (hi' : i < gs'.length),
        ((gs.get ⟨i, hi⟩).name ≠ mr.name → gs'.get ⟨i, hi'⟩ = gs.get ⟨i, hi⟩) ∧
        ((gs.get ⟨i, hi⟩).name = mr.name →
          ∃ ms', replaceFirst mr (gs.get ⟨i, hi⟩).grafanaManagedReceivers = some ms' ∧
            gs'.get ⟨i, hi'⟩ =
              { gs.get ⟨i, hi⟩ with grafanaManagedReceivers := ms' }) := by
  intro gs
  induction gs with
  | nil =>
      intro gs' h
      rw [updateGroups] at h
      refine ⟨by simpa using (Except.ok.inj h).symm ▸ rfl, ?_⟩
      intro i hi
      exact absurd hi (by simp)
  | cons g gs ih =>
      intro gs' h
      rw [updateGroups] at h
      by_cases hn : g.name = mr.name
      · rw [if_pos hn] at h
        cases hrf : replaceFirst mr g.grafanaManagedReceivers with
        | none => rw [hrf] at h; simp at h
        | some ms =>
            rw [hrf] at h
            obtain ⟨rest, hrest, hgs'⟩ := exceptMap_ok h
            subst hgs'
            obtain ⟨hlen, hspec⟩ := ih hrest
            refine ⟨by simp [hlen], ?_⟩
            intro i hi hi'
            cases i with
            | zero =>
                constructor
                · intro hne; exact absurd hn hne
                · intro _; exact ⟨ms, hrf, by simp⟩
            | succ j =>
                have hj : j < gs.length := by simpa using hi
                have hj' : j < rest.length := by simpa using hi'
                simpa using hspec j hj hj'
      · rw [if_neg hn] at h
        obtain ⟨rest, hrest, hgs'⟩ := exceptMap_ok h
        subst hgs'
        obtain ⟨hlen, hspec⟩ := ih hrest
        refine ⟨by simp [hlen], ?_⟩
        intro i hi hi'
        cases i with
        | zero =>
            constructor
            · intro _; simp
            · intro hne; exact absurd hne hn
        | succ j =>
            have hj : j < gs.length := by simpa using hi
            have hj' : j < rest.length := by simpa using hi'
            simpa using hspec j hj hj'

theorem updateGroups_error_of_missing {mr : GrafanaReceiver} :
    ∀ {gs : List ApiReceiver}, (∃ g ∈ gs, g.name = mr.name ∧
        ∀ r ∈ g.grafanaManagedReceivers, r.uid ≠ mr.uid) →
      updateGroups mr gs = .error (notFoundMsg mr.uid) := by
  intro gs
  induction gs with
  | nil => rintro ⟨g, hg, _⟩; cases hg
  | cons g0 gs ih =>
      rintro ⟨g, hg, hname, hno⟩
      rcases List.mem_cons.mp hg with hhead | htail
      · subst hhead
        rw [updateGroups, if_pos hname, replaceFirst_none_iff.mpr hno]
      · rw [updateGroups]
        have herr := ih ⟨g, htail, hname, hno⟩
        by_cases hn : g0.name = mr.name
        · rw [if_pos hn]
          cases hrf : replaceFirst mr g0.grafanaManagedReceivers with
          | none => rfl
          | some ms => rw [herr]; rfl
        · rw [if_neg hn, herr]; rfl

theorem map_eq_self_of {α : Type} {l : List α} {f : α → α}
    (h : ∀ x ∈ l, f x = x) : l.map f = l := by
  induction l with
  | nil => rfl
  | cons a as ih => simp [h a (by simp), ih (fun x hx => h x (by simp [hx]))]

theorem removeFirst_no_match {uid : String} {ms : List GrafanaReceiver}
    (h : ∀ r ∈ ms, r.uid ≠ uid) : removeFirstWithUid uid ms = ms := by
  induction ms with
  | nil => rfl
  | cons r rs ih =>
      rw [removeFirstWithUid, if_neg (h r (by simp)),
        ih (fun x hx => h x (by simp [hx]))]

theorem removeFirst_clears {uid : String} {ms : List GrafanaReceiver}
    (h : (ms.filter (fun r => r.uid == uid)).length ≤ 1) :
    ∀ r ∈ removeFirstWithUid uid ms, r.uid ≠ uid := by
  induction ms with
  | nil => intro r hr; cases hr
  | cons r0 rs ih =>
      by_cases h0 : r0.uid = uid
      · rw [removeFirstWithUid, if_pos h0]
        intro r hr hc
        have hf : rs.filter (fun r => r.uid == uid) = [] := by
          rw [List.filter_cons_of_pos (by simp [h0])] at h
          simp only [List.length_cons] at h
          exact List.length_eq_zero.mp (by omega)
        have : r ∈ rs.filter (fun r => r.uid == uid) :=
          List.mem_filter.mpr ⟨hr, by simp [hc]⟩
        rw [hf] at this
        cases this
      · rw [removeFirstWithUid, if_neg h0]
        intro r hr
        rcases List.mem_cons.mp hr with hh | ht
        · subst hh; exact h0
        · refine ih ?_ r ht
          rw [List.filter_cons_of_neg (by simp [h0])] at h
          exact h

theorem deleteFromConfig_no_match {cfg : PostableUserConfig} {uid : String}
    (h : ∀ g ∈ cfg.receivers, ∀ r ∈ g.grafanaManagedReceivers, r.uid ≠ uid) :
    deleteFromConfig cfg uid = cfg := by
  cases cfg with
  | mk rs =>
      simp only [deleteFromConfig]
      congr 1
      apply map_eq_self_of
      intro g hg
      rw [removeFirst_no_match (h g hg)]

theorem deleteFromConfig_idem {cfg : PostableUserConfig} {uid : String}
    (h : ∀ g ∈ cfg.receivers,
      (g.grafanaManagedReceivers.filter (fun r => r.uid == uid)).length ≤ 1) :
    deleteFromConfig (deleteFromConfig cfg uid) uid = deleteFromConfig cfg uid := by
  cases cfg with
  | mk rs =>
      simp only [deleteFromConfig, List.map_map]
      congr 1
      apply List.map_congr_left
      intro g hg
      simp only [Function.comp]
      rw [removeFirst_no_match (removeFirst_clears (h g hg))]

/-! ## Closed-form evaluations of Create and Delete -/

theorem createContactPoint_eq (crypto : CryptoService)
    (secretKeysOf : String → List String)
    (isValidCp : EmbeddedContactPoint → Bool)
    (hashFn : PostableUserConfig → Nat) (fs fp : Bool) (newUid : String)
    (st : SvcState) (cp : EmbeddedContactPoint) (tag : String) :
    CreateContactPoint crypto secretKeysOf isValidCp hashFn ⟨fs, fp⟩ newUid st cp tag =
      if isValidCp cp then
        if fs then (some .storeError, st)
        else if fp then (some .storeError, st)
        else (none,
          { doc := addReceiverToConfig st.doc (createdReceiver crypto secretKeysOf newUid cp)
            provenance := setS st.provenance newUid tag })
      else (some .invalidContactPoint, st) := by
  by_cases hval : isValidCp cp <;>
    cases fs <;> cases fp <;>
      simp [CreateContactPoint, hval, InTransaction, createTxnBody, SaveIfUnchanged]

theorem deleteContactPoint_eq (hashFn : PostableUserConfig → Nat)
    (fs fp : Bool) (st : SvcState) (uid : String) :
    DeleteContactPoint hashFn ⟨fs, fp⟩ st uid =
      if fp then (some .storeError, st)
      else if fs then (some .storeError, st)
      else (none,
        { doc := deleteFromConfig st.doc uid
          provenance := st.provenance.filter (fun kv => kv.1 != uid) }) := by
  cases fs <;> cases fp <;>
    simp [DeleteContactPoint, InTransaction, deleteTxnBody, SaveIfUnchanged]

/-! ## Concrete sample data for the witnesses -/

def sampleDec : String → Option String := fun s =>
  if s = "bad" then none else some s

def sampleCrypto : CryptoService := ⟨fun s => s, fun s => some s⟩

def sampleSecretKeysOf : String → List String := fun t =>
  if t = "email" then ["password"] else []

def sampleValid : EmbeddedContactPoint → Bool := fun _ => true

def sampleHash : PostableUserConfig → Nat := fun cfg => cfg.receivers.length

def sampleReceiver : GrafanaReceiver :=
  ⟨"u1", "ops", "email", false, [("addresses", "a@x.com")], [("password", "pw")]⟩

def sampleConfig : PostableUserConfig := ⟨[⟨"ops", [sampleReceiver]⟩]⟩

def sampleSt : SvcState := ⟨sampleConfig, [("u1", "api")]⟩

def sampleCp : EmbeddedContactPoint :=
  ⟨"", "ops", "email", false, [("addresses", "a@x.com"), ("password", "pw")], ""⟩

def badReceiver : GrafanaReceiver :=
  ⟨"u2", "dev", "email", false, [("addresses", "d@x.com")],
    [("password", "bad"), ("token", "tk")]⟩

def badConfig : PostableUserConfig :=
  ⟨[⟨"ops", [sampleReceiver]⟩, ⟨"dev", [badReceiver]⟩]⟩

def emptySt : SvcState := ⟨⟨[]⟩, []⟩

def updCp : EmbeddedContactPoint :=
  ⟨"u1", "ops", "email", false,
    [("addresses", "b@x.com"), ("password", RedactedValue)], ""⟩

/-! ## Claim theorems -/

/-- C1: for every contact point returned by `GetContactPoints` and every key
of its stored `SecureSettings`, the returned `Settings` maps that key to the
fixed `RedactedValue` sentinel when the stored ciphertext decrypts to a
non-empty value, and leaves the key untouched when decryption fails or the
decrypted value is empty; moreover every returned settings value is either an
original plain-settings value or the sentinel, so the decrypted plaintext
never appears in the returned payload. -/
theorem getContactPoints_redacts (dec : String → Option String)
    (provenances : List (String × String)) (cfg : PostableUserConfig)
    (r : GrafanaReceiver) (hr : r ∈ GetGrafanaReceiverMap cfg)
    (hnd : (r.secureSettings.map Prod.fst).Nodup) :
    redactContactPoint dec provenances r ∈ GetContactPoints dec provenances cfg ∧
    (∀ k v, (k, v) ∈ r.secureSettings →
      (∀ d, dec v = some d → d ≠ "" →
        getS (redactContactPoint dec provenances r).settings k = RedactedValue) ∧
      (dec v = none ∨ dec v = some "" →
        getS (redactContactPoint dec provenances r).settings k = getS r.settings k)) ∧
    (∀ k, getS (redactContactPoint dec provenances r).settings k = getS r.settings k ∨
      getS (redactContactPoint dec provenances r).settings k = RedactedValue) := by
  refine ⟨List.mem_map.mpr ⟨r, hr, rfl⟩, ?_, ?_⟩
  · intro k v hkv
    constructor
    · intro d hd hne
      exact getS_applyDecrypted_hit hnd hkv hd hne r.settings
    · intro hd
      exact getS_applyDecrypted_skip hnd hkv hd r.settings
  · intro k
    exact getS_redact_range dec r.secureSettings k r.settings

/-- C1 witness: on the sample configuration the populated secret key
`password` comes back as the sentinel, and the plain key keeps its value. -/
theorem getContactPoints_redacts_witness :
    getS (redactContactPoint sampleDec [] sampleReceiver).settings "password" =
      RedactedValue ∧
    getS (redactContactPoint sampleDec [] sampleReceiver).settings "addresses" =
      getS sampleReceiver.settings "addresses" := by
  have h := getContactPoints_redacts sampleDec [] sampleConfig sampleReceiver
    (by decide) (by decide)
  refine ⟨(h.2.1 "password" "pw" (by decide)).1 "pw" (by decide) (by decide), ?_⟩
  rcases h.2.2 "addresses" with hh | hh
  · exact hh
  · exact absurd hh (by decide)

/-- C9: during `GetContactPoints` a decryption failure for a single
secure-settings key is non-fatal: the key is left untouched, no error is
propagated (the listing still contains one entry per receiver), every other
key of the same receiver is still redacted when populated, and every other
receiver is still returned. -/
theorem getContactPoints_decrypt_failure_nonfatal (dec : String → Option String)
    (provenances : List (String × String)) (cfg : PostableUserConfig)
    (r : GrafanaReceiver) (k0 v0 : String)
    (hr : r ∈ GetGrafanaReceiverMap cfg)
    (hnd : (r.secureSettings.map Prod.fst).Nodup)
    (hkv : (k0, v0) ∈ r.secureSettings) (hfail : dec v0 = none) :
    (GetContactPoints dec provenances cfg).length =
      (GetGrafanaReceiverMap cfg).length ∧
    redactContactPoint dec provenances r ∈ GetContactPoints dec provenances cfg ∧
    getS (redactContactPoint dec provenances r).settings k0 = getS r.settings k0 ∧
    (∀ k v d, (k, v) ∈ r.secureSettings → dec v = some d → d ≠ "" →
      getS (redactContactPoint dec provenances r).settings k = RedactedValue) ∧
    (∀ r' ∈ GetGrafanaReceiverMap cfg,
      redactContactPoint dec provenances r' ∈ GetContactPoints dec provenances cfg) := by
  refine ⟨List.length_map _ _, List.mem_map.mpr ⟨r, hr, rfl⟩, ?_, ?_, ?_⟩
  · exact getS_applyDecrypted_skip hnd hkv (Or.inl hfail) r.settings
  · intro k v d hmem hd hne
    exact getS_applyDecrypted_hit hnd hmem hd hne r.settings
  · intro r' hr'
    exact List.mem_map.mpr ⟨r', hr', rfl⟩

/-- C9 witness: in the sample configuration with one corrupt ciphertext, the
corrupt key keeps its plain value, the healthy key of the same receiver is
redacted, and the listing still has one entry per receiver. -/
theorem getContactPoints_decrypt_failure_nonfatal_witness :
    (GetContactPoints sampleDec [] badConfig).length =
      (GetGrafanaReceiverMap badConfig).length ∧
    getS (redactContactPoint sampleDec [] badReceiver).settings "password" =
      getS badReceiver.settings "password" ∧
    getS (redactContactPoint sampleDec [] badReceiver).settings "token" =
      RedactedValue := by
  have h := getContactPoints_decrypt_failure_nonfatal sampleDec [] badConfig
    badReceiver "password" "bad" (by decide) (by decide) (by decide) (by decide)
  exact ⟨h.1, h.2.2.1, h.2.2.2.1 "token" "tk" "tk" (by decide) (by decide) (by decide)⟩

/-- C2: in `CreateContactPoint` the document save and the provenance write
for the new UID run inside one transaction: whichever half fails (including
via injected faults), neither the document nor the provenance table changes;
on success both the spliced document and the provenance record for the new
UID are persisted together. -/
theorem createContactPoint_atomic (crypto : CryptoService)
    (secretKeysOf : String → List String)
    (isValidCp : EmbeddedContactPoint → Bool)
    (hashFn : PostableUserConfig → Nat) (fi : FailureInjection)
    (newUid : String) (st : SvcState) (cp : EmbeddedContactPoint)
    (tag : String) :
    ((CreateContactPoint crypto secretKeysOf isValidCp hashFn fi newUid st cp tag).1.isSome →
      (CreateContactPoint crypto secretKeysOf isValidCp hashFn fi newUid st cp tag).2 = st) ∧
    ((CreateContactPoint crypto secretKeysOf isValidCp hashFn fi newUid st cp tag).1 = none →
      (CreateContactPoint crypto secretKeysOf isValidCp hashFn fi newUid st cp tag).2.doc =
        addReceiverToConfig st.doc (createdReceiver crypto secretKeysOf newUid cp) ∧
      getS (CreateContactPoint crypto secretKeysOf isValidCp hashFn fi newUid st cp tag).2.provenance
        newUid = tag) := by
  cases fi with
  | mk fs fp =>
      rw [createContactPoint_eq]
      by_cases hval : isValidCp cp <;> cases fs <;> cases fp <;>
        simp [hval, getS_setS_self]

/-- C2 witness: injecting a failure into the provenance half of the
transaction leaves the whole state (document and provenance) untouched. -/
theorem createContactPoint_atomic_witness :
    (CreateContactPoint sampleCrypto sampleSecretKeysOf sampleValid sampleHash
      ⟨false, true⟩ "u9" sampleSt sampleCp "api").2 = sampleSt :=
  (createContactPoint_atomic sampleCrypto sampleSecretKeysOf sampleValid
    sampleHash ⟨false, true⟩ "u9" sampleSt sampleCp "api").1 (by decide)

/-- C6: a successful `CreateContactPoint` appends the new receiver to the
member list of every existing receiver group whose name matches the contact
point's name; when no group matches it appends exactly one new group, named
after the contact point, containing only the new receiver. -/
theorem createdReceiver_name (crypto : CryptoService)
    (secretKeysOf : String → List String) (newUid : String)
    (cp : EmbeddedContactPoint) :
    (createdReceiver crypto secretKeysOf newUid cp).name = cp.name := rfl

theorem createContactPoint_groups (crypto : CryptoService)
    (secretKeysOf : String → List String)
    (isValidCp : EmbeddedContactPoint → Bool)
    (hashFn : PostableUserConfig → Nat) (newUid : String) (st : SvcState)
    (cp : EmbeddedContactPoint) (tag : String) (hval : isValidCp cp = true) :
    (CreateContactPoint crypto secretKeysOf isValidCp hashFn ⟨false, false⟩
        newUid st cp tag).1 = none ∧
    ((∃ g ∈ st.doc.receivers, g.name = cp.name) →
      (CreateContactPoint crypto secretKeysOf isValidCp hashFn ⟨false, false⟩
          newUid st cp tag).2.doc.receivers =
        st.doc.receivers.map (fun g =>
          if g.name = cp.name then
            { g with grafanaManagedReceivers := g.grafanaManagedReceivers ++
                [createdReceiver crypto secretKeysOf newUid cp] }
          else g)) ∧
    ((∀ g ∈ st.doc.receivers, g.name ≠ cp.name) →
      (CreateContactPoint crypto secretKeysOf isValidCp hashFn ⟨false, false⟩
          newUid st cp tag).2.doc.receivers =
        st.doc.receivers ++
          [⟨cp.name, [createdReceiver crypto secretKeysOf newUid cp]⟩]) := by
  rw [createContactPoint_eq]
  refine ⟨by simp [hval], ?_, ?_⟩
  · rintro ⟨g, hg, hname⟩
    simp only [hval, if_true, Bool.false_eq_true, if_false]
    simp only [addReceiverToConfig, createdReceiver_name, List.any_eq_true,
      beq_iff_eq]
    rw [if_pos (show ∃ x ∈ st.doc.receivers, x.name = cp.name from ⟨g, hg, hname⟩)]
  · intro hnone
    have hne : ¬∃ x ∈ st.doc.receivers, x.name = cp.name := by
      rintro ⟨x, hx, hxn⟩
      exact hnone x hx hxn
    simp only [hval, if_true, Bool.false_eq_true, if_false]
    simp only [addReceiverToConfig, createdReceiver_name, List.any_eq_true,
      beq_iff_eq]
    rw [if_neg hne]

/-- C6 witness: creating into the sample document (one matching group named
`ops`) appends the new receiver to that group's member list. -/
theorem createContactPoint_groups_witness :
    (CreateContactPoint sampleCrypto sampleSecretKeysOf sampleValid sampleHash
        ⟨false, false⟩ "u9" sampleSt sampleCp "api").2.doc.receivers =
      sampleSt.doc.receivers.map (fun g =>
        if g.name = sampleCp.name then
          { g with grafanaManagedReceivers := g.grafanaManagedReceivers ++
              [createdReceiver sampleCrypto sampleSecretKeysOf "u9" sampleCp] }
        else g) :=
  (createContactPoint_groups sampleCrypto sampleSecretKeysOf sampleValid
    sampleHash "u9" sampleSt sampleCp "api" (by decide)).2.1 (by decide)

/-- C7: `DeleteContactPoint` of a UID matching no member returns no error and
leaves the configuration document unchanged; and (for documents where each
group holds at most one member per UID, the expected shape) deleting the same
UID twice has the same effect on the document as deleting it once. -/
theorem deleteContactPoint_idempotent (hashFn : PostableUserConfig → Nat)
    (st : SvcState) (uid : String) :
    ((∀ g ∈ st.doc.receivers, ∀ r ∈ g.grafanaManagedReceivers, r.uid ≠ uid) →
      (DeleteContactPoint hashFn ⟨false, false⟩ st uid).1 = none ∧
      (DeleteContactPoint hashFn ⟨false, false⟩ st uid).2.doc = st.doc) ∧
    ((DeleteContactPoint hashFn ⟨false, false⟩ st uid).1 = none) ∧
    ((∀ g ∈ st.doc.receivers,
        (g.grafanaManagedReceivers.filter (fun r => r.uid == uid)).length ≤ 1) →
      deleteFromConfig (deleteFromConfig st.doc uid) uid = deleteFromConfig st.doc uid ∧
      (DeleteContactPoint hashFn ⟨false, false⟩ st uid).2.doc =
        deleteFromConfig st.doc uid) := by
  rw [deleteContactPoint_eq]
  refine ⟨?_, by simp, ?_⟩
  · intro hno
    exact ⟨by simp, by simpa using deleteFromConfig_no_match hno⟩
  · intro honce
    exact ⟨deleteFromConfig_idem honce, by simp⟩

/-- C7 witness: deleting the absent UID `zz` from the sample state neither
errors nor changes the document. -/
theorem deleteContactPoint_idempotent_witness :
    (DeleteContactPoint sampleHash ⟨false, false⟩ sampleSt "zz").1 = none ∧
    (DeleteContactPoint sampleHash ⟨false, false⟩ sampleSt "zz").2.doc =
      sampleSt.doc :=
  (deleteContactPoint_idempotent sampleHash sampleSt "zz").1 (by decide)

/-- C5: the optimistic-concurrency token — when two writers both load the
configuration at the same content hash, the first `SaveIfUnchanged` commit
wins and the second fails with `ConcurrentModification` (as long as the first
change moved the hash), leaving exactly the first writer's document, never a
mix; and every mutating operation commits with the hash captured at its own
read, so a sequential `UpdateContactPoint` can never fail with
`ConcurrentModification`. -/
theorem saveIfUnchanged_concurrency (hashFn : PostableUserConfig → Nat)
    (st d1 d2 : PostableUserConfig) (hne : hashFn d1 ≠ hashFn st) :
    SaveIfUnchanged hashFn st d1 (hashFn st) = .ok d1 ∧
    SaveIfUnchanged hashFn d1 d2 (hashFn st) = .error .concurrentModification ∧
    ∀ (crypto : CryptoService) (secretKeysOf : String → List String)
      (isValidCp : EmbeddedContactPoint → Bool) (st' : SvcState)
      (cp : EmbeddedContactPoint),
      (UpdateContactPoint crypto secretKeysOf isValidCp hashFn st' cp).1 ≠
        some .concurrentModification := by
  refine ⟨by simp [SaveIfUnchanged], by simp [SaveIfUnchanged, hne], ?_⟩
  intro crypto secretKeysOf isValidCp st' cp
  rw [UpdateContactPoint]
  split
  · simp
  · dsimp only
    split
    · simp
    · split
      · simp
      · simp [SaveIfUnchanged]

/-- C5 witness: starting from the empty document, writer A commits the
sample document; writer B, still holding the empty document's hash, fails
with `ConcurrentModification`. -/
theorem saveIfUnchanged_concurrency_witness :
    SaveIfUnchanged sampleHash (⟨[]⟩ : PostableUserConfig) sampleConfig
      (sampleHash ⟨[]⟩) = .ok sampleConfig ∧
    SaveIfUnchanged sampleHash sampleConfig (⟨[]⟩ : PostableUserConfig)
      (sampleHash ⟨[]⟩) = .error .concurrentModification := by
  have h := saveIfUnchanged_concurrency sampleHash ⟨[]⟩ sampleConfig ⟨[]⟩
    (by decide)
  exact ⟨h.1, h.2.1⟩

/-- C3: in `UpdateContactPoint`, every secret key whose submitted value
equals the redaction sentinel is replaced — before validation and
re-encryption — by the plaintext previously stored for that key, as returned
by the internal unredacted accessor; consequently the merged receiver built
for persistence carries the encryption of that previously stored plaintext,
so an update sending only sentinels preserves the stored secrets. -/
theorem updateContactPoint_merge (crypto : CryptoService)
    (secretKeysOf : String → List String) (st : SvcState)
    (cp raw : EmbeddedContactPoint) (k : String)
    (_hraw : getContactPointUncrypted crypto.dec st.doc cp.uid = .ok raw)
    (hk : k ∈ secretKeysOf cp.ctype) (hnd : (secretKeysOf cp.ctype).Nodup)
    (hsent : getS cp.settings k = RedactedValue) :
    getS (mergeRedactedSettings (secretKeysOf cp.ctype) cp.settings raw.settings) k =
      getS raw.settings k ∧
    findVal (mergedReceiverOf crypto secretKeysOf
        { cp with settings :=
            mergeRedactedSettings (secretKeysOf cp.ctype) cp.settings raw.settings }).secureSettings
      k = some (crypto.enc (getS raw.settings k)) := by
  have hmerge := getS_mergeRedacted_hit hnd hk raw.settings cp.settings hsent
  have hhas : hasKey
      (mergeRedactedSettings (secretKeysOf cp.ctype) cp.settings raw.settings) k = true :=
    hasKey_mergeRedacted_hit hnd hk raw.settings cp.settings hsent
  refine ⟨hmerge, ?_⟩
  simp only [mergedReceiverOf, ExtractSecrtes]
  rw [findVal_map_enc]
  rw [findVal_extract _ hk hhas, hmerge]
  rfl

/-- C3 witness: an update of the sample contact point that submits the
sentinel for `password` merges back the stored plaintext `pw` and persists
its encryption. -/
theorem updateContactPoint_merge_witness :
    getS (mergeRedactedSettings (sampleSecretKeysOf updCp.ctype) updCp.settings
      (uncryptedView sampleCrypto.dec sampleReceiver).settings) "password" =
      getS (uncryptedView sampleCrypto.dec sampleReceiver).settings "password" ∧
    findVal (mergedReceiverOf sampleCrypto sampleSecretKeysOf
        { updCp with settings :=
            (mergeRedactedSettings (sampleSecretKeysOf updCp.ctype) updCp.settings
              (uncryptedView sampleCrypto.dec sampleReceiver).settings) }).secureSettings
      "password" =
      some (sampleCrypto.enc
        (getS (uncryptedView sampleCrypto.dec sampleReceiver).settings "password")) :=
  updateContactPoint_merge sampleCrypto sampleSecretKeysOf sampleSt updCp
    (uncryptedView sampleCrypto.dec sampleReceiver) "password"
    (by rfl) (by decide) (by decide) (by decide)

/-- C8: the internal unredacted accessor `getContactPointUncrypted` returns,
for a UID present in some receiver group (UIDs unique), that single contact
point with every non-empty decryptable secret's plaintext set in `Settings`,
and fails with the not-found error when no receiver carries the UID. -/
theorem getContactPointUncrypted_spec (dec : String → Option String)
    (cfg : PostableUserConfig) (uid : String) :
    (∀ r, r ∈ GetGrafanaReceiverMap cfg → r.uid = uid →
      ((GetGrafanaReceiverMap cfg).map GrafanaReceiver.uid).Nodup →
      getContactPointUncrypted dec cfg uid = .ok (uncryptedView dec r) ∧
      (uncryptedView dec r).uid = uid ∧
      (∀ k v d, (k, v) ∈ r.secureSettings →
        (r.secureSettings.map Prod.fst).Nodup →
        dec v = some d → d ≠ "" →
        getS (uncryptedView dec r).settings k = d)) ∧
    ((∀ r ∈ GetGrafanaReceiverMap cfg, r.uid ≠ uid) →
      getContactPointUncrypted dec cfg uid = .error (notFoundMsg uid)) := by
  constructor
  · intro r hr huid hnd
    have hfind := find?_uid_eq hr huid hnd
    refine ⟨?_, huid, ?_⟩
    · rw [getContactPointUncrypted, hfind]
    · intro k v d hkv hkeys hd hne
      exact getS_applyDecrypted_hit hkeys hkv hd hne r.settings
  · intro hno
    have hfind : (GetGrafanaReceiverMap cfg).find? (fun r => r.uid == uid) = none := by
      apply List.find?_eq_none.mpr
      intro r hr
      simp [hno r hr]
    rw [getContactPointUncrypted, hfind]

/-- C8 witness: creating the sample contact point into an empty organization
and fetching it through the unredacted accessor returns the original
plaintext secret `pw`. -/
theorem getContactPointUncrypted_spec_witness :
    getContactPointUncrypted sampleCrypto.dec
      (CreateContactPoint sampleCrypto sampleSecretKeysOf sampleValid sampleHash
        ⟨false, false⟩ "u7" emptySt sampleCp "api").2.doc "u7" =
      .ok (uncryptedView sampleCrypto.dec
        (createdReceiver sampleCrypto sampleSecretKeysOf "u7" sampleCp)) ∧
    getS (uncryptedView sampleCrypto.dec
      (createdReceiver sampleCrypto sampleSecretKeysOf "u7" sampleCp)).settings
      "password" = "pw" := by
  have h := (getContactPointUncrypted_spec sampleCrypto.dec
    (CreateContactPoint sampleCrypto sampleSecretKeysOf sampleValid sampleHash
      ⟨false, false⟩ "u7" emptySt sampleCp "api").2.doc "u7").1
    (createdReceiver sampleCrypto sampleSecretKeysOf "u7" sampleCp)
    (by decide) (by decide) (by decide)
  exact ⟨h.1, h.2.2 "password" "pw" "pw" (by decide) (by decide) (by decide)
    (by decide)⟩

/-- Counterexample configuration for the update not-found behaviour: the UID
`u1` lives in group `groupA`, while the update renames to `groupB`, a name no
group carries. -/
def cfgC4 : PostableUserConfig :=
  ⟨[⟨"groupA", [⟨"u1", "groupA", "t", false, [], []⟩]⟩]⟩

def stC4 : SvcState := ⟨cfgC4, []⟩

def cpC4 : EmbeddedContactPoint := ⟨"u1", "groupB", "t", false, [], ""⟩

def cryptoC4 : CryptoService := ⟨fun s => s, fun s => some s⟩

def skfC4 : String → List String := fun _ => []

def validC4 : EmbeddedContactPoint → Bool := fun _ => true

def hashC4 : PostableUserConfig → Nat := fun _ => 0

/-- C4 counterexample: when no receiver group matches the contact point's
name but the UID exists in another group, `UpdateContactPoint` does NOT fail
with `NotFound` — it succeeds and persists the document unchanged, contrary
to the claim. -/
theorem updateContactPoint_notFound_cex :
    (∀ g ∈ stC4.doc.receivers, g.name ≠ cpC4.name) ∧
    (UpdateContactPoint cryptoC4 skfC4 validC4 hashC4 stC4 cpC4).1 = none ∧
    (UpdateContactPoint cryptoC4 skfC4 validC4 hashC4 stC4 cpC4).2.doc =
      stC4.doc := by
  refine ⟨by decide, by decide, by decide⟩

/-- C4 amended: `UpdateContactPoint` fails with the `NotFound` error
(message `contact point with uid ... not found`) and persists nothing, both
when no receiver anywhere carries the UID (the initial unredacted fetch
fails) and when some group matching the contact point's name contains no
member with the UID; but when the UID exists only in groups of other names,
the scan finds nothing to replace and the operation succeeds, persisting the
document unchanged (see the counterexample). -/
theorem updateContactPoint_notFound (crypto : CryptoService)
    (secretKeysOf : String → List String)
    (isValidCp : EmbeddedContactPoint → Bool)
    (hashFn : PostableUserConfig → Nat) (st : SvcState)
    (cp : EmbeddedContactPoint) :
    ((∀ r ∈ GetGrafanaReceiverMap st.doc, r.uid ≠ cp.uid) →
      UpdateContactPoint crypto secretKeysOf isValidCp hashFn st cp =
        (some (.notFound (notFoundMsg cp.uid)), st)) ∧
    (∀ raw, getContactPointUncrypted crypto.dec st.doc cp.uid = .ok raw →
      isValidCp { cp with settings :=
        mergeRedactedSettings (secretKeysOf cp.ctype) cp.settings raw.settings } = true →
      (∃ g ∈ st.doc.receivers, g.name = cp.name ∧
        ∀ r ∈ g.grafanaManagedReceivers, r.uid ≠ cp.uid) →
      UpdateContactPoint crypto secretKeysOf isValidCp hashFn st cp =
        (some (.notFound (notFoundMsg cp.uid)), st)) := by
  constructor
  · intro hno
    have hfind : (GetGrafanaReceiverMap st.doc).find? (fun r => r.uid == cp.uid) = none := by
      apply List.find?_eq_none.mpr
      intro r hr
      simp [hno r hr]
    rw [UpdateContactPoint, getContactPointUncrypted, hfind]
  · intro raw hraw hval ⟨g, hg, hgname, hgno⟩
    rw [UpdateContactPoint, hraw]
    dsimp only
    rw [hval]
    have herr : updateGroups
        (mergedReceiverOf crypto secretKeysOf
          { cp with settings :=
              mergeRedactedSettings (secretKeysOf cp.ctype) cp.settings raw.settings })
        st.doc.receivers = .error (notFoundMsg cp.uid) :=
      updateGroups_error_of_missing ⟨g, hg, hgname, hgno⟩
    simp only [Bool.not_true, Bool.false_eq_true, if_false]
    rw [herr]

/-- C4 witness (amended claim): updating a UID absent from the whole sample
document fails with the `NotFound` error and leaves the state unchanged. -/
theorem updateContactPoint_notFound_witness :
    UpdateContactPoint sampleCrypto sampleSecretKeysOf sampleValid sampleHash
      sampleSt ⟨"zz", "ops", "email", false, [], ""⟩ =
      (some (.notFound (notFoundMsg "zz")), sampleSt) :=
  (updateContactPoint_notFound sampleCrypto sampleSecretKeysOf sampleValid
    sampleHash sampleSt ⟨"zz", "ops", "email", false, [], ""⟩).1 (by decide)

/-- C10: a successful `UpdateContactPoint` replaces, in every group whose
name matches (the single matched member in the expected unique-name shape),
the first member carrying the UID in place via `List.set` — preserving its
position — leaves every other member and every group of a different name
unchanged, and never touches the provenance table. -/
theorem updateContactPoint_frame (crypto : CryptoService)
    (secretKeysOf : String → List String)
    (isValidCp : EmbeddedContactPoint → Bool)
    (hashFn : PostableUserConfig → Nat) (st : SvcState)
    (cp : EmbeddedContactPoint) (st' : SvcState)
    (hok : UpdateContactPoint crypto secretKeysOf isValidCp hashFn st cp =
      (none, st')) :
    st'.provenance = st.provenance ∧
    ∃ mr : GrafanaReceiver, mr.uid = cp.uid ∧ mr.name = cp.name ∧
      st'.doc.receivers.length = st.doc.receivers.length ∧
      ∀ i (hi : i < st.doc.receivers.length) (hi' : i < st'.doc.receivers.length),
        ((st.doc.receivers.get ⟨i, hi⟩).name ≠ cp.name →
          st'.doc.receivers.get ⟨i, hi'⟩ = st.doc.receivers.get ⟨i, hi⟩) ∧
        ((st.doc.receivers.get ⟨i, hi⟩).name = cp.name →
          ∃ j, ∃ hj : j < (st.doc.receivers.get ⟨i, hi⟩).grafanaManagedReceivers.length,
            ((st.doc.receivers.get ⟨i, hi⟩).grafanaManagedReceivers.get ⟨j, hj⟩).uid = cp.uid ∧
            (∀ j' (hj' : j' < (st.doc.receivers.get ⟨i, hi⟩).grafanaManagedReceivers.length),
              j' < j →
              ((st.doc.receivers.get ⟨i, hi⟩).grafanaManagedReceivers.get ⟨j', hj'⟩).uid ≠ cp.uid) ∧
            st'.doc.receivers.get ⟨i, hi'⟩ =
              { st.doc.receivers.get ⟨i, hi⟩ with
                  grafanaManagedReceivers :=
                    ((st.doc.receivers.get ⟨i, hi⟩).grafanaManagedReceivers.set j mr) }) := by
  rw [UpdateContactPoint] at hok
  split at hok
  · exact absurd (congrArg Prod.fst hok) (by simp)
  · rename_i rawcp hfetch
    dsimp only at hok
    split at hok
    · exact absurd (congrArg Prod.fst hok) (by simp)
    · split at hok
      · exact absurd (congrArg Prod.fst hok) (by simp)
      · rename_i rs hup
        split at hok
        · exact absurd (congrArg Prod.fst hok) (by simp)
        · rename_i d hsave
          rw [SaveIfUnchanged, if_pos rfl] at hsave
          have hst' : st' = { st with doc := d } :=
            ((Prod.mk.injEq _ _ _ _).mp hok).2.symm
          subst hst'
          have hd : d = { receivers := rs } := (Except.ok.inj hsave).symm
          subst hd
          obtain ⟨hlen, hspec⟩ := updateGroups_ok_spec hup
          refine ⟨rfl, mergedReceiverOf crypto secretKeysOf
            { cp with settings :=
                (mergeRedactedSettings (secretKeysOf cp.ctype) cp.settings
                  rawcp.settings) },
            rfl, rfl, hlen, ?_⟩
          intro i hi hi'
          obtain ⟨hother, hmatch⟩ := hspec i hi hi'
          refine ⟨hother, ?_⟩
          intro hname
          obtain ⟨ms', hrf, hget⟩ := hmatch hname
          obtain ⟨j, hj, hjuid, hbefore, hset⟩ := replaceFirst_some_spec hrf
          refine ⟨j, hj, hjuid, ?_, ?_⟩
          · intro j' hj' hlt
            exact hbefore j' hj' hlt
          · rw [hget, hset]

/-- C10 witness: the sample update succeeds and leaves the provenance table
untouched. -/
theorem updateContactPoint_frame_witness :
    ((UpdateContactPoint sampleCrypto sampleSecretKeysOf sampleValid sampleHash
        sampleSt updCp).2).provenance = sampleSt.provenance :=
  (updateContactPoint_frame sampleCrypto sampleSecretKeysOf sampleValid
    sampleHash sampleSt updCp
    (UpdateContactPoint sampleCrypto sampleSecretKeysOf sampleValid sampleHash
      sampleSt updCp).2 (by decide)).1
